import Mathlib

/-!
Shallow embedding of `src/zfdb/core.py` (the connector-gated `Engine` /
`Database` record store backed by a ZIP container) together with the parts
of the Python standard library its observable behaviour depends on:
`zipfile`'s duplicate-name resolution and arcname normalization
(`posixpath.normpath`), `str.split`, and strict UTF-8 encoding/decoding as
used by text-mode file writes and `bytes.decode("utf-8")`.

A ZIP container is modelled as the ordered list of its entries
(name, payload bytes).  Reading a name returns the payload of the *last*
entry bearing that name, exactly as `zipfile.ZipFile.read` does (its
`NameToInfo` map is built front to back, so later entries win).
-/

namespace Zfdb

/-- A byte sequence; each element is a byte value `< 256` in the inputs we
build (nothing below depends on an upper bound). -/
abbrev Bytes := List Nat

/-- Payloads accepted by the engine: `bytes` or `str` (the two runtime types
`write_record`/`update_record` branch on). -/
inductive Data where
  | bytes (b : Bytes)
  | text (s : String)
deriving DecidableEq, Repr

/-! ## UTF-8, as used by text-mode writes and `bytes.decode("utf-8")` -/

/-- UTF-8 encoding of a single Unicode code point (assumed valid). -/
def utf8EncodeCp (c : Nat) : List Nat :=
  if c < 0x80 then [c]
  else if c < 0x800 then [0xC0 + c / 0x40, 0x80 + c % 0x40]
  else if c < 0x10000 then
    [0xE0 + c / 0x1000, 0x80 + (c / 0x40) % 0x40, 0x80 + c % 0x40]
  else
    [0xF0 + c / 0x40000, 0x80 + (c / 0x1000) % 0x40,
     0x80 + (c / 0x40) % 0x40, 0x80 + c % 0x40]

/-- UTF-8 encoding of a list of code points. -/
def utf8EncodeCps : List Nat → Bytes
  | [] => []
  | c :: cs => utf8EncodeCp c ++ utf8EncodeCps cs

/-- UTF-8 encoding of a string (what `open(path, "w").write(s)` stores on a
UTF-8 locale, and what `s.encode("utf-8")` returns). -/
def encodeStr (s : String) : Bytes :=
  utf8EncodeCps (s.data.map Char.toNat)

/-- Whether a byte is a UTF-8 continuation byte (`10xxxxxx`). -/
def contByte (b : Nat) : Prop := 0x80 ≤ b ∧ b < 0xC0

instance (b : Nat) : Decidable (contByte b) := by
  unfold contByte; infer_instance

/-- Decode the tail of a two-byte UTF-8 sequence led by `b`. -/
def utf8Dec2 (b : Nat) : Bytes → Option (Nat × Bytes)
  | b1 :: bs2 =>
    if contByte b1 then some ((b - 0xC0) * 0x40 + (b1 - 0x80), bs2) else none
  | [] => none

/-- Decode the tail of a three-byte UTF-8 sequence led by `b`, rejecting
overlong encodings and surrogate code points. -/
def utf8Dec3 (b : Nat) : Bytes → Option (Nat × Bytes)
  | b1 :: b2 :: bs2 =>
    if contByte b1 ∧ contByte b2 then
      if (b - 0xE0) * 0x1000 + (b1 - 0x80) * 0x40 + (b2 - 0x80) < 0x800 ∨
          (0xD800 ≤ (b - 0xE0) * 0x1000 + (b1 - 0x80) * 0x40 + (b2 - 0x80) ∧
           (b - 0xE0) * 0x1000 + (b1 - 0x80) * 0x40 + (b2 - 0x80) < 0xE000)
      then none
      else some ((b - 0xE0) * 0x1000 + (b1 - 0x80) * 0x40 + (b2 - 0x80), bs2)
    else none
  | _ => none

/-- Decode the tail of a four-byte UTF-8 sequence led by `b`, rejecting
overlong and out-of-range encodings. -/
def utf8Dec4 (b : Nat) : Bytes → Option (Nat × Bytes)
  | b1 :: b2 :: b3 :: bs2 =>
    if contByte b1 ∧ contByte b2 ∧ contByte b3 then
      if (b - 0xF0) * 0x40000 + (b1 - 0x80) * 0x1000 + (b2 - 0x80) * 0x40 +
            (b3 - 0x80) < 0x10000 ∨
          0x110000 ≤ (b - 0xF0) * 0x40000 + (b1 - 0x80) * 0x1000 +
            (b2 - 0x80) * 0x40 + (b3 - 0x80)
      then none
      else some ((b - 0xF0) * 0x40000 + (b1 - 0x80) * 0x1000 +
                 (b2 - 0x80) * 0x40 + (b3 - 0x80), bs2)
    else none
  | _ => none

/-- Strict decoding of one UTF-8 sequence from the front of a byte list:
returns the code point and the remaining bytes, or `none` on malformed
input (lone/overlong/surrogate/out-of-range sequences), exactly the set of
inputs `bytes.decode("utf-8")` accepts. -/
def utf8DecodeOne : Bytes → Option (Nat × Bytes)
  | [] => none
  | b :: bs =>
    if b < 0x80 then some (b, bs)
    else if b < 0xC2 then none
    else if b < 0xE0 then utf8Dec2 b bs
    else if b < 0xF0 then utf8Dec3 b bs
    else if b < 0xF5 then utf8Dec4 b bs
    else none

theorem utf8Dec2_length {b : Nat} {l : Bytes} {cp : Nat} {rest : Bytes}
    (h : utf8Dec2 b l = some (cp, rest)) : rest.length < l.length := by
  match l with
  | [] => simp [utf8Dec2] at h
  | b1 :: bs2 =>
    simp only [utf8Dec2] at h
    split at h
    · simp only [Option.some.injEq, Prod.mk.injEq] at h
      obtain ⟨-, h2⟩ := h
      subst h2; simp
    · simp at h

theorem utf8Dec3_length {b : Nat} {l : Bytes} {cp : Nat} {rest : Bytes}
    (h : utf8Dec3 b l = some (cp, rest)) : rest.length < l.length := by
  match l with
  | [] => simp [utf8Dec3] at h
  | [_] => simp [utf8Dec3] at h
  | b1 :: b2 :: bs2 =>
    simp only [utf8Dec3] at h
    split at h
    · split at h
      · simp at h
      · simp only [Option.some.injEq, Prod.mk.injEq] at h
        obtain ⟨-, h2⟩ := h
        subst h2; simp; omega
    · simp at h

theorem utf8Dec4_length {b : Nat} {l : Bytes} {cp : Nat} {rest : Bytes}
    (h : utf8Dec4 b l = some (cp, rest)) : rest.length < l.length := by
  match l with
  | [] => simp [utf8Dec4] at h
  | [_] => simp [utf8Dec4] at h
  | [_, _] => simp [utf8Dec4] at h
  | b1 :: b2 :: b3 :: bs2 =>
    simp only [utf8Dec4] at h
    split at h
    · split at h
      · simp at h
      · simp only [Option.some.injEq, Prod.mk.injEq] at h
        obtain ⟨-, h2⟩ := h
        subst h2; simp; omega
    · simp at h

theorem utf8DecodeOne_length_lt :
    ∀ (l : Bytes) (cp : Nat) (rest : Bytes),
      utf8DecodeOne l = some (cp, rest) → rest.length < l.length := by
  intro l cp rest h
  match l with
  | [] => simp [utf8DecodeOne] at h
  | b :: bs =>
    simp only [utf8DecodeOne] at h
    split_ifs at h
    · simp only [Option.some.injEq, Prod.mk.injEq] at h
      obtain ⟨-, h2⟩ := h
      subst h2; simp
    · exact Nat.lt_trans (utf8Dec2_length h) (by simp)
    · exact Nat.lt_trans (utf8Dec3_length h) (by simp)
    · exact Nat.lt_trans (utf8Dec4_length h) (by simp)

/-- Strict UTF-8 decoding of a whole byte list into code points; `none`
models `UnicodeDecodeError`. -/
def utf8Decode (l : Bytes) : Option (List Nat) :=
  match h : utf8DecodeOne l with
  | some (cp, rest) => (utf8Decode rest).map (cp :: ·)
  | none => if l = [] then some [] else none
termination_by l.length
decreasing_by exact utf8DecodeOne_length_lt _ _ _ h

/-- `bytes.decode("utf-8")`: the string whose code points are the strict
UTF-8 decoding of the bytes, or `none` on a decoding error. -/
def pyDecodeUtf8 (b : Bytes) : Option String :=
  (utf8Decode b).map (fun cps => ⟨cps.map Char.ofNat⟩)

theorem charOfNat_toNat (c : Char) : Char.ofNat c.toNat = c := by
  apply Char.eq_of_val_eq
  rw [Char.ofNat, dif_pos (show c.toNat.isValidChar from c.valid)]
  apply UInt32.eq_of_toBitVec_eq
  apply BitVec.eq_of_toNat_eq
  simp [Char.ofNatAux]
  rfl

theorem utf8DecodeOne_encode (c : Nat) (hv : c.isValidChar) (rest : Bytes) :
    utf8DecodeOne (utf8EncodeCp c ++ rest) = some (c, rest) := by
  have hlt : c < 0x110000 := by
    rcases hv with h | ⟨h1, h2⟩ <;> omega
  have hns : ¬ (0xD800 ≤ c ∧ c < 0xE000) := by
    rcases hv with h | ⟨h1, h2⟩ <;> omega
  by_cases h1 : c < 0x80
  · have e : utf8EncodeCp c = [c] := by unfold utf8EncodeCp; rw [if_pos h1]
    rw [e]
    simp only [List.singleton_append, utf8DecodeOne]
    rw [if_pos h1]
  · by_cases h2 : c < 0x800
    · have e : utf8EncodeCp c = [0xC0 + c / 0x40, 0x80 + c % 0x40] := by
        unfold utf8EncodeCp; rw [if_neg h1, if_pos h2]
      rw [e]
      simp only [List.cons_append, List.nil_append, utf8DecodeOne]
      rw [if_neg (by omega), if_neg (by omega), if_pos (by omega)]
      simp only [utf8Dec2]
      rw [if_pos (show contByte (0x80 + c % 0x40) from ⟨by omega, by omega⟩)]
      simp only [Option.some.injEq, Prod.mk.injEq]
      exact ⟨by omega, trivial⟩
    · by_cases h3 : c < 0x10000
      · have e : utf8EncodeCp c =
            [0xE0 + c / 0x1000, 0x80 + (c / 0x40) % 0x40, 0x80 + c % 0x40] := by
          unfold utf8EncodeCp; rw [if_neg h1, if_neg h2, if_pos h3]
        rw [e]
        simp only [List.cons_append, List.nil_append, utf8DecodeOne]
        rw [if_neg (by omega), if_neg (by omega), if_neg (by omega),
          if_pos (by omega)]
        simp only [utf8Dec3]
        rw [if_pos (show contByte (0x80 + (c / 0x40) % 0x40) ∧
            contByte (0x80 + c % 0x40) from
          ⟨⟨by omega, by omega⟩, by omega, by omega⟩)]
        rw [if_neg (by omega)]
        simp only [Option.some.injEq, Prod.mk.injEq]
        exact ⟨by omega, trivial⟩
      · have e : utf8EncodeCp c =
            [0xF0 + c / 0x40000, 0x80 + (c / 0x1000) % 0x40,
             0x80 + (c / 0x40) % 0x40, 0x80 + c % 0x40] := by
          unfold utf8EncodeCp; rw [if_neg h1, if_neg h2, if_neg h3]
        rw [e]
        simp only [List.cons_append, List.nil_append, utf8DecodeOne]
        rw [if_neg (by omega), if_neg (by omega), if_neg (by omega),
          if_neg (by omega), if_pos (by omega)]
        simp only [utf8Dec4]
        rw [if_pos (show contByte (0x80 + (c / 0x1000) % 0x40) ∧
            contByte (0x80 + (c / 0x40) % 0x40) ∧
            contByte (0x80 + c % 0x40) from
          ⟨⟨by omega, by omega⟩, ⟨by omega, by omega⟩, by omega, by omega⟩)]
        rw [if_neg (by omega)]
        simp only [Option.some.injEq, Prod.mk.injEq]
        exact ⟨by omega, trivial⟩

theorem utf8Decode_nil : utf8Decode [] = some [] := by
  rw [utf8Decode]
  simp [utf8DecodeOne]

theorem utf8Decode_step (l : Bytes) (cp : Nat) (rest : Bytes)
    (h : utf8DecodeOne l = some (cp, rest)) :
    utf8Decode l = (utf8Decode rest).map (cp :: ·) := by
  rw [utf8Decode]
  split
  · rename_i cp' rest' h'
    rw [h] at h'
    injection h' with h''
    injection h'' with hcp hrest
    rw [hcp, hrest]
  · rename_i h'
    rw [h] at h'
    exact absurd h' (by simp)

theorem utf8Decode_encode (cps : List Nat)
    (hv : ∀ c ∈ cps, Nat.isValidChar c) :
    utf8Decode (utf8EncodeCps cps) = some cps := by
  induction cps with
  | nil => exact utf8Decode_nil
  | cons c cs ih =>
    have hstep := utf8DecodeOne_encode c (hv c (by simp)) (utf8EncodeCps cs)
    rw [show utf8EncodeCps (c :: cs) = utf8EncodeCp c ++ utf8EncodeCps cs
        from rfl]
    rw [utf8Decode_step _ _ _ hstep, ih (fun x hx => hv x (by simp [hx]))]
    rfl

/-- Round trip: decoding the UTF-8 encoding of any string yields the string
back (this is the `bytes.decode("utf-8")` inverse of a text-mode write). -/
theorem pyDecodeUtf8_encodeStr (s : String) :
    pyDecodeUtf8 (encodeStr s) = some s := by
  unfold pyDecodeUtf8 encodeStr
  rw [utf8Decode_encode _ (by
    intro c hc
    simp only [List.mem_map] at hc
    obtain ⟨ch, -, rfl⟩ := hc
    exact ch.valid)]
  simp only [Option.map, List.map_map]
  have hmap : s.data.map (Char.ofNat ∘ Char.toNat) = s.data := by
    rw [show Char.ofNat ∘ Char.toNat = id from funext charOfNat_toNat]
    exact List.map_id _
  rw [hmap]

/-! ## Exceptions

The exceptions whose identity the engine's observable behaviour depends on:
the classes of `zfdb/exceptions.py` plus the Python built-ins `core.py` can
let escape (`KeyError` from an unchecked `del`, `ValueError` for an unknown
rebuild mode, `TypeError` for a bytes write to a text-mode file,
`IndexError` from `[0]` on an empty list and from `ZipInfo.from_file` on an
all-slash arcname). -/

inductive ZErr where
  | connectorError
  | keyError
  | recordExists
  | recordNotExists
  | rebuildFailed
  | valueError
  | typeError
  | indexError
  | noSuchDatabase
  | databaseExists
deriving DecidableEq, Repr

/-! ## `posixpath` / `zipfile` name handling

`ZipFile.write(filename, arcname)` stores the entry under
`posixpath.normpath(arcname)` with leading slashes stripped
(`ZipInfo.from_file`), and `_recreate` passes `rec.split('/')[-1]` as the
arcname.  These are modelled character-by-character. -/

/-- `str.split(sep)` on character lists: splits at every separator, keeps
empty pieces, always returns at least one piece. -/
def splitChar (sep : Char) : List Char → List (List Char)
  | [] => [[]]
  | c :: cs =>
    if c = sep then [] :: splitChar sep cs
    else
      match splitChar sep cs with
      | h :: t => (c :: h) :: t
      | [] => [[c]]

/-- Joining pieces with a separator (inverse direction of `splitChar`). -/
def intercalateChar (sep : Char) : List (List Char) → List Char
  | [] => []
  | [x] => x
  | x :: y :: xs => x ++ sep :: intercalateChar sep (y :: xs)

/-- The `initial_slashes` value of `posixpath.normpath`: 1 for one leading
slash, 2 for exactly two, 1 again for three or more, 0 otherwise. -/
def initialSlashes (l : List Char) : Nat :=
  if l.take 3 = ['/', '/', '/'] then 1
  else if l.take 2 = ['/', '/'] then 2
  else if l.take 1 = ['/'] then 1
  else 0

/-- The component filter of `posixpath.normpath`: drops empty and `.`
components; `..` pops the previous component unless at the start of a
relative path or following a kept `..`. -/
def normComps (initSl : Nat) (comps : List (List Char)) : List (List Char) :=
  comps.foldl (fun acc comp =>
    if comp = [] ∨ comp = ['.'] then acc
    else if comp ≠ ['.', '.'] ∨ (initSl = 0 ∧ acc = []) ∨
        acc.getLastD [] = ['.', '.'] then acc ++ [comp]
    else acc.dropLast) []

/-- `posixpath.normpath` (on character lists); never returns the empty
list: an empty result is replaced by `"."`. -/
def normpathChars (l : List Char) : List Char :=
  if l = [] then ['.']
  else if List.replicate (initialSlashes l) '/' ++
      intercalateChar '/' (normComps (initialSlashes l) (splitChar '/' l)) = []
    then ['.']
  else List.replicate (initialSlashes l) '/' ++
    intercalateChar '/' (normComps (initialSlashes l) (splitChar '/' l))

/-- Normalized arcname with leading slashes stripped, as `ZipInfo.from_file`
computes it before storing an entry. -/
def writeArcnameChars (l : List Char) : List Char :=
  (normpathChars l).dropWhile (· = '/')

/-- Total version of the arcname `ZipFile.write` stores for a given name
(meaningful whenever `fromFileArcname` succeeds). -/
def writeArcname (s : String) : String :=
  ⟨writeArcnameChars s.data⟩

/-- The arcname computation of `ZipInfo.from_file`: `IndexError` when the
name normalizes to slashes only (the stripping loop indexes an empty
string), otherwise the stripped normalized name. -/
def fromFileArcname (s : String) : Except ZErr String :=
  if writeArcnameChars s.data = [] then .error .indexError
  else .ok ⟨writeArcnameChars s.data⟩

/-- `rec.split('/')[-1]`: the basename `_recreate` passes as arcname. -/
def pySplitLast (s : String) : String :=
  ⟨(splitChar '/' s.data).getLastD []⟩

/-! ## The container file -/

/-- One entry of the ZIP container: a name and its payload bytes. -/
structure Entry where
  name : String
  data : Bytes
deriving DecidableEq, Repr

/-- A container file, as the ordered list of its entries.  Append-mode
writes add entries at the end; duplicate names are allowed. -/
abbrev Container := List Entry

/-- `ZipFile.namelist()`: entry names in order. -/
def namelist (c : Container) : List String := c.map (·.name)

/-- `ZipFile.read(n)`: the payload of the last entry named `n` (later
entries shadow earlier ones in `NameToInfo`), `none` when absent
(`KeyError`). -/
def zipRead (c : Container) (n : String) : Option Bytes :=
  (c.reverse.find? (fun e => e.name == n)).map (·.data)

/-- The bytes a payload contributes to a file write: `bytes` verbatim,
`str` through the (UTF-8) text-mode encoding. -/
def dataBytes : Data → Bytes
  | .bytes b => b
  | .text s => encodeStr s

/-- Python truthiness of a payload: empty `bytes`/`str` are falsy. -/
def dataFalsy : Data → Bool
  | .bytes b => b.isEmpty
  | .text s => s.isEmpty

/-- `set(namelist)` modelled as first-occurrence deduplication.  Python's
set iteration order is unspecified; every property proved below about a
rebuilt container is invariant under reordering of this list. -/
def dedupFirst (l : List String) : List String :=
  l.foldl (fun acc x => if x ∈ acc then acc else acc ++ [x]) []

/-! ## The engine -/

/-- The connector map of `Engine`: the set of handle ids (`id(db)`) present
as keys of `self.connections`.  The stored `(id, name, path)` values are
never consulted by the operations modelled here, so only the key set is
carried. -/
structure EngineSt where
  connections : Finset Nat
deriving DecidableEq

instance {ε α : Type} [DecidableEq ε] [DecidableEq α] :
    DecidableEq (Except ε α)
  | .error a, .error b =>
    if h : a = b then .isTrue (by rw [h]) else .isFalse (by simp [h])
  | .error _, .ok _ => .isFalse (by simp)
  | .ok _, .error _ => .isFalse (by simp)
  | .ok a, .ok b =>
    if h : a = b then .isTrue (by rw [h]) else .isFalse (by simp [h])

/-- Result of one engine call on a database: the returned value or the
propagated exception, and the container file at the database path after
the call. -/
structure OpOutcome (α : Type) where
  ret : Except ZErr α
  db : Container
deriving DecidableEq, Repr

/-- Result of `Engine._rebuild`: the container at the database path after
the call, the propagated exception if any, and whether the `mkdtemp`
directory was created but never removed (`shutil.rmtree` runs only after
the successful swap; no handler removes the directory on failure). -/
structure RebuildOutcome where
  db : Container
  err : Option ZErr
  tmpLeaked : Bool
deriving DecidableEq, Repr

/-- The extracted file `tmp/<name>` after `ZipFile.extractall`: entries are
extracted in order, so the last entry with a given name determines the
file's bytes.  (Defaults to `[]` for names not in the archive — never
consulted for those.) -/
def extractedContent (c : Container) (n : String) : Bytes :=
  (zipRead c n).getD []

/-- `Engine._recreate`: writes each name of `existing` into a fresh
archive under the arcname `rec.split('/')[-1]` (the final path component),
reading the bytes from the extracted tree. -/
def recreate (files : String → Bytes) (existing : List String) : Container :=
  existing.map (fun rec => ⟨writeArcname (pySplitLast rec), files rec⟩)

/-- `Engine.rebuild_modes`. -/
def rebuildModes : List String := ["recreate", "delete", "update"]

/-- `Engine._rebuild`.  `recordName`/`d` model the optional
`record_name`/`data` parameters (`Option.none` = Python `None`).  The
`update` mode opens the extracted file in *append* mode, so the new data
is appended after the record's current bytes. -/
def rebuild (c : Container) (mode : String) (recordName : Option String)
    (d : Option Data) : RebuildOutcome :=
  if mode ∉ rebuildModes then ⟨c, some .valueError, false⟩
  else
    let existing := dedupFirst (namelist c)
    if mode = "recreate" then
      ⟨recreate (extractedContent c) existing, none, false⟩
    else if mode = "update" then
      match recordName, d with
      | some rn, some dd =>
        if rn = "" ∨ dataFalsy dd then ⟨c, some .rebuildFailed, true⟩
        else if rn ∉ existing then ⟨c, some .recordNotExists, true⟩
        else
          ⟨recreate (fun x =>
              if x = rn then extractedContent c rn ++ dataBytes dd
              else extractedContent c x) existing, none, false⟩
      | _, _ => ⟨c, some .rebuildFailed, true⟩
    else
      match recordName with
      | some rn =>
        if rn = "" then ⟨c, some .rebuildFailed, true⟩
        else if rn ∉ existing then ⟨c, some .recordNotExists, true⟩
        else ⟨recreate (extractedContent c) (existing.filter (· ≠ rn)),
              none, false⟩
      | none => ⟨c, some .rebuildFailed, true⟩

/-- `Engine.write_record` (`Database.insert`).  `i` is the handle id of
the database object, `c` the container at its path.  The existence check
precedes the `ZipFile.write`, whose arcname normalization determines the
stored entry name. -/
def write_record (e : EngineSt) (i : Nat) (c : Container) (rn : String)
    (d : Data) : OpOutcome Bool :=
  if i ∉ e.connections then ⟨.error .connectorError, c⟩
  else if rn ∈ namelist c then ⟨.error .recordExists, c⟩
  else
    match fromFileArcname rn with
    | .error er => ⟨.error er, c⟩
    | .ok arc => ⟨.ok true, c ++ [⟨arc, dataBytes d⟩]⟩

/-- The `records` argument of `Database.find` / `Engine.read_records`:
`None`, a single string, or a list of names. -/
inductive NamesArg where
  | noneArg
  | one (n : String)
  | many (ns : List String)
deriving DecidableEq, Repr

/-- Python truthiness of the argument (`if not record_names:`): `None`,
the empty string and the empty list are falsy. -/
def namesFalsy : NamesArg → Bool
  | .noneArg => true
  | .one n => n = ""
  | .many ns => ns = []

/-- A fetched record.  `read_records` passes the *whole* resolved name
collection as the `record_name` of every `Record` it builds (a source
quirk kept here); `raw` is the payload from `ZipFile.read`. -/
structure RecordObj where
  names : List String
  raw : Bytes
deriving DecidableEq, Repr

/-- The body of `Engine.read_records` after connection validation: a falsy
argument is replaced by the full name list; a string becomes a singleton;
each name is fetched, with `KeyError` (absent name) silently skipped. -/
def readList (c : Container) (arg : NamesArg) : List RecordObj :=
  let names :=
    if namesFalsy arg then namelist c
    else
      match arg with
      | .one n => [n]
      | .many ns => ns
      | .noneArg => namelist c
  names.filterMap (fun n => (zipRead c n).map (fun b => ⟨names, b⟩))

/-- `Engine.read_records` (`Database.find`). -/
def read_records (e : EngineSt) (i : Nat) (c : Container) (arg : NamesArg) :
    OpOutcome (List RecordObj) :=
  if i ∉ e.connections then ⟨.error .connectorError, c⟩
  else ⟨.ok (readList c arg), c⟩

/-- `Engine.list_records` (`Database.records`). -/
def list_records (e : EngineSt) (i : Nat) (c : Container) :
    OpOutcome (List String) :=
  if i ∉ e.connections then ⟨.error .connectorError, c⟩
  else ⟨.ok (namelist c), c⟩

/-- `Engine.update_record` (`Database.update`).  Without `rebuild`: after
the existence check, the record's current bytes and then the new data are
appended to a fresh temporary file (`mkstemp` creates it empty, both opens
use append mode), and that file is written back as a *duplicate* entry
under the same name (the duplicate-name warning is suppressed).  With a
`str` payload the first temporary write passes `bytes` to a text-mode
file and raises `TypeError`.  With `rebuild=True` it delegates to
`_rebuild` in `update` mode. -/
def update_record (e : EngineSt) (i : Nat) (c : Container) (rn : String)
    (d : Data) (rebuildFlag : Bool) : OpOutcome Bool :=
  if i ∉ e.connections then ⟨.error .connectorError, c⟩
  else if rebuildFlag then
    let ro := rebuild c "update" (some rn) (some d)
    match ro.err with
    | some er => ⟨.error er, ro.db⟩
    | none => ⟨.ok true, ro.db⟩
  else
    if rn ∉ namelist c then ⟨.error .recordNotExists, c⟩
    else
      match readList c (.one rn) with
      | [] => ⟨.error .indexError, c⟩
      | r :: _ =>
        match d with
        | .text _ => ⟨.error .typeError, c⟩
        | .bytes bd =>
          match fromFileArcname rn with
          | .error er => ⟨.error er, c⟩
          | .ok arc => ⟨.ok true, c ++ [⟨arc, r.raw ++ bd⟩]⟩

/-- `Engine.remove_record` (`Database.delete`): validate the connection,
then `_rebuild` in `delete` mode. -/
def remove_record (e : EngineSt) (i : Nat) (c : Container) (rn : String) :
    OpOutcome Bool :=
  if i ∉ e.connections then ⟨.error .connectorError, c⟩
  else
    let ro := rebuild c "delete" (some rn) none
    match ro.err with
    | some er => ⟨.error er, ro.db⟩
    | none => ⟨.ok true, ro.db⟩

/-- `Engine.drop_connectors` (what `Database.close` calls): an *unchecked*
`del self.connections[id(database_obj)]` — `KeyError` when the key is
absent, no `ConnectorError` path. -/
def drop_connectors (e : EngineSt) (i : Nat) : Except ZErr EngineSt :=
  if i ∈ e.connections then .ok ⟨e.connections.erase i⟩
  else .error .keyError

/-- `Engine.drop_database` (`Database.drop`): validate the connection,
drop the connector, then `os.remove` the container file; `fileOnDisk`
models whether that path exists (`FileNotFoundError` is re-raised as
`NoSuchDatabaseError`).  Returns the result and the engine state after
the call. -/
def drop_database (e : EngineSt) (i : Nat) (fileOnDisk : Bool) :
    Except ZErr Bool × EngineSt :=
  if i ∉ e.connections then (.error .connectorError, e)
  else if fileOnDisk then (.ok true, ⟨e.connections.erase i⟩)
  else (.error .noSuchDatabase, ⟨e.connections.erase i⟩)

/-! ## Container lemmas -/

theorem zipRead_append (c1 c2 : Container) (m : String) :
    zipRead (c1 ++ c2) m =
      match zipRead c2 m with
      | some b => some b
      | none => zipRead c1 m := by
  unfold zipRead
  rw [List.reverse_append, List.find?_append]
  rcases h : c2.reverse.find? (fun e => e.name == m) with _ | e <;>
    simp [h, Option.orElse]

theorem zipRead_singleton (en : Entry) (m : String) :
    zipRead [en] m = if en.name = m then some en.data else none := by
  by_cases h : en.name = m
  · simp [zipRead, List.find?, h]
  · have hb : (en.name == m) = false := by simp [h]
    simp [zipRead, List.find?, hb, h]

theorem zipRead_append_self (c : Container) (n : String) (b : Bytes) :
    zipRead (c ++ [⟨n, b⟩]) n = some b := by
  rw [zipRead_append, zipRead_singleton]
  simp

theorem zipRead_append_ne (c : Container) (n m : String) (b : Bytes)
    (h : n ≠ m) : zipRead (c ++ [⟨n, b⟩]) m = zipRead c m := by
  rw [zipRead_append, zipRead_singleton]
  simp only [h, if_false]

theorem zipRead_eq_none_iff (c : Container) (n : String) :
    zipRead c n = none ↔ n ∉ namelist c := by
  simp [zipRead, List.find?_eq_none, namelist]

theorem mem_namelist_of_zipRead {c : Container} {n : String} {b : Bytes}
    (h : zipRead c n = some b) : n ∈ namelist c := by
  by_contra hn
  rw [← zipRead_eq_none_iff] at hn
  rw [h] at hn
  exact absurd hn (by simp)

theorem zipRead_some_of_mem {c : Container} {n : String}
    (h : n ∈ namelist c) : ∃ b, zipRead c n = some b := by
  rcases hz : zipRead c n with _ | b
  · rw [zipRead_eq_none_iff] at hz
    exact absurd h hz
  · exact ⟨b, rfl⟩

theorem zipRead_map (F : List String) (f : String → Bytes) (m : String) :
    zipRead (F.map (fun x => ⟨x, f x⟩)) m =
      if m ∈ F then some (f m) else none := by
  induction F with
  | nil => simp [zipRead]
  | cons x F' ih =>
    have hc : (x :: F').map (fun x => (⟨x, f x⟩ : Entry)) =
        [⟨x, f x⟩] ++ F'.map (fun x => ⟨x, f x⟩) := by simp
    rw [hc, zipRead_append, ih, zipRead_singleton]
    by_cases hm : m ∈ F'
    · rw [if_pos hm]
      simp [hm]
    · rw [if_neg hm]
      by_cases hx : x = m
      · subst hx
        simp
      · rw [if_neg hx, if_neg (fun hmem =>
          (List.mem_cons.mp hmem).elim (fun e => hx e.symm) hm)]

/-! ## `dedupFirst` lemmas -/

theorem mem_foldl_dedup (l : List String) (acc : List String) (x : String) :
    x ∈ l.foldl (fun acc y => if y ∈ acc then acc else acc ++ [y]) acc ↔
      x ∈ acc ∨ x ∈ l := by
  induction l generalizing acc with
  | nil => simp
  | cons y l' ih =>
    rw [List.foldl_cons, ih]
    by_cases hy : y ∈ acc
    · rw [if_pos hy]
      constructor
      · rintro (h | h)
        · exact Or.inl h
        · exact Or.inr (List.mem_cons_of_mem y h)
      · rintro (h | h)
        · exact Or.inl h
        · rcases List.mem_cons.mp h with rfl | h
          · exact Or.inl hy
          · exact Or.inr h
    · rw [if_neg hy]
      constructor
      · rintro (h | h)
        · rcases List.mem_append.mp h with h | h
          · exact Or.inl h
          · simp only [List.mem_singleton] at h
            exact Or.inr (h ▸ List.mem_cons_self y l')
        · exact Or.inr (List.mem_cons_of_mem y h)
      · rintro (h | h)
        · exact Or.inl (List.mem_append.mpr (Or.inl h))
        · rcases List.mem_cons.mp h with rfl | h
          · exact Or.inl (List.mem_append.mpr (Or.inr (by simp)))
          · exact Or.inr h

theorem mem_dedupFirst (l : List String) (x : String) :
    x ∈ dedupFirst l ↔ x ∈ l := by
  unfold dedupFirst
  rw [mem_foldl_dedup]
  simp

theorem nodup_foldl_dedup (l : List String) (acc : List String)
    (hacc : acc.Nodup) :
    (l.foldl (fun acc y => if y ∈ acc then acc else acc ++ [y]) acc).Nodup := by
  induction l generalizing acc with
  | nil => simpa
  | cons y l' ih =>
    rw [List.foldl_cons]
    by_cases hy : y ∈ acc
    · rw [if_pos hy]
      exact ih acc hacc
    · rw [if_neg hy]
      exact ih _ (by simp [List.nodup_append, hacc, hy])

theorem nodup_dedupFirst (l : List String) : (dedupFirst l).Nodup :=
  nodup_foldl_dedup l [] (by simp)

/-! ## Tame names

A *tame* name is nonempty, not `.` or `..`, and contains no `/`: both the
arcname normalization of `ZipFile.write` and the `split('/')[-1]` of
`_recreate` leave such names unchanged.  All record names appearing in the
operational claims below are tame unless a claim is specifically about a
non-tame one. -/

def tameName (s : String) : Prop :=
  s.data ≠ [] ∧ s.data ≠ ['.'] ∧ s.data ≠ ['.', '.'] ∧ '/' ∉ s.data

instance (s : String) : Decidable (tameName s) := by
  unfold tameName; infer_instance

theorem splitChar_of_not_mem (sep : Char) (l : List Char) (h : sep ∉ l) :
    splitChar sep l = [l] := by
  induction l with
  | nil => rfl
  | cons c cs ih =>
    have hc : c ≠ sep := fun hh => h (hh ▸ List.mem_cons_self c cs)
    have hcs : sep ∉ cs := fun hh => h (List.mem_cons_of_mem c hh)
    unfold splitChar
    rw [if_neg hc, ih hcs]

theorem initialSlashes_eq_zero {l : List Char} (h : '/' ∉ l) :
    initialSlashes l = 0 := by
  have h1 : l.take 1 ≠ ['/'] := fun hh =>
    h (List.take_subset 1 l (by rw [hh]; simp))
  have h2 : l.take 2 ≠ ['/', '/'] := fun hh =>
    h (List.take_subset 2 l (by rw [hh]; simp))
  have h3 : l.take 3 ≠ ['/', '/', '/'] := fun hh =>
    h (List.take_subset 3 l (by rw [hh]; simp))
  unfold initialSlashes
  rw [if_neg h3, if_neg h2, if_neg h1]

theorem normpathChars_tame (l : List Char) (h0 : l ≠ []) (h1 : l ≠ ['.'])
    (h2 : l ≠ ['.', '.']) (h3 : '/' ∉ l) : normpathChars l = l := by
  have hcomps : normComps 0 [l] = [l] := by
    unfold normComps
    rw [List.foldl_cons]
    rw [if_neg (fun hc => Or.elim hc h0 h1), if_pos (Or.inl h2)]
    simp
  unfold normpathChars
  rw [if_neg h0, splitChar_of_not_mem _ _ h3, initialSlashes_eq_zero h3,
    hcomps]
  simp only [List.replicate_zero, List.nil_append, intercalateChar]
  rw [if_neg h0]

theorem dropWhile_slash_of_not_mem {l : List Char} (h : '/' ∉ l) :
    l.dropWhile (· = '/') = l := by
  cases l with
  | nil => rfl
  | cons c cs =>
    have hc : c ≠ '/' := fun hh => h (hh ▸ List.mem_cons_self c cs)
    rw [List.dropWhile_cons, if_neg (by simp [hc])]

theorem fromFileArcname_tame (s : String) (h : tameName s) :
    fromFileArcname s = .ok s := by
  obtain ⟨h0, h1, h2, h3⟩ := h
  unfold fromFileArcname writeArcnameChars
  rw [normpathChars_tame s.data h0 h1 h2 h3, dropWhile_slash_of_not_mem h3,
    if_neg h0]

theorem writeArcname_tame (s : String) (h : tameName s) :
    writeArcname s = s := by
  obtain ⟨h0, h1, h2, h3⟩ := h
  unfold writeArcname writeArcnameChars
  rw [normpathChars_tame s.data h0 h1 h2 h3, dropWhile_slash_of_not_mem h3]

theorem pySplitLast_tame (s : String) (h3 : '/' ∉ s.data) :
    pySplitLast s = s := by
  unfold pySplitLast
  rw [splitChar_of_not_mem _ _ h3]
  rfl

theorem tameName_ne_empty {s : String} (h : tameName s) : s ≠ "" := by
  intro hs
  subst hs
  exact h.1 rfl

theorem ne_empty_of_arcFixed {s : String} (h : fromFileArcname s = .ok s) :
    s ≠ "" := by
  intro hs
  subst hs
  rw [show fromFileArcname "" = .ok "." from by decide] at h
  injection h with h'
  exact absurd h' (by decide)

/-! ## `read_records` resolution lemmas -/

theorem readList_one (c : Container) (n : String) (h : n ≠ "") :
    readList c (.one n) =
      match zipRead c n with
      | some b => [⟨[n], b⟩]
      | none => [] := by
  unfold readList namesFalsy
  rw [if_neg (by simp [h])]
  rcases hz : zipRead c n with _ | b <;> simp [hz]

/-! ## Claim C7 -/

/-- C7: inserting under a name already present in the container always
fails with `RecordExists`, and the failed call leaves the container
unchanged (same entries, byte-identical payloads). -/
theorem insert_existing_record_fails (e : EngineSt) (i : Nat)
    (c : Container) (n : String) (d : Data) (hconn : i ∈ e.connections)
    (hin : n ∈ namelist c) :
    (write_record e i c n d).ret = .error .recordExists ∧
    (write_record e i c n d).db = c := by
  unfold write_record
  rw [if_neg (not_not_intro hconn), if_pos hin]
  exact ⟨rfl, rfl⟩

theorem insert_existing_record_fails_witness :
    (0 ∈ (⟨{0}⟩ : EngineSt).connections ∧ "a" ∈ namelist [⟨"a", [1]⟩]) ∧
    ((write_record ⟨{0}⟩ 0 [⟨"a", [1]⟩] "a" (.bytes [2])).ret =
        .error .recordExists ∧
      (write_record ⟨{0}⟩ 0 [⟨"a", [1]⟩] "a" (.bytes [2])).db =
        [⟨"a", [1]⟩]) :=
  ⟨⟨by decide, by decide⟩,
    insert_existing_record_fails ⟨{0}⟩ 0 [⟨"a", [1]⟩] "a" (.bytes [2])
      (by decide) (by decide)⟩

/-! ## Claim C8 -/

/-- C8 (amended): `get`/`find` on a name with no entry is not an error for
any *nonempty* name: the missing name is silently skipped (`KeyError`
caught) and the result is the valid empty list.  The empty name is falsy
in Python, so `read_records` replaces it by the full name list and returns
every record instead (see the counterexample). -/
theorem find_missing_record_empty (e : EngineSt) (i : Nat) (c : Container)
    (n : String) (hconn : i ∈ e.connections) (hne : n ≠ "")
    (habs : zipRead c n = none) :
    (read_records e i c (.one n)).ret = .ok [] := by
  unfold read_records
  rw [if_neg (not_not_intro hconn)]
  have h : readList c (.one n) = [] := by
    rw [readList_one c n hne, habs]
  simp [h]

theorem find_missing_record_empty_witness :
    (0 ∈ (⟨{0}⟩ : EngineSt).connections ∧ "x" ≠ "" ∧
      zipRead [⟨"m", [1]⟩] "x" = none) ∧
    (read_records ⟨{0}⟩ 0 [⟨"m", [1]⟩] (.one "x")).ret = .ok [] :=
  ⟨⟨by decide, by decide, by decide⟩,
    find_missing_record_empty ⟨{0}⟩ 0 [⟨"m", [1]⟩] "x" (by decide)
      (by decide) (by decide)⟩

/-- C8 counterexample: the empty name has no entry in the container
`[⟨"m", [1]⟩]`, yet `find("")` does not return an empty result — the falsy
name is replaced by the full name list and the whole store is returned. -/
theorem find_missing_record_empty_name_cex :
    zipRead [⟨"m", [1]⟩] "" = none ∧
    (read_records ⟨{0}⟩ 0 [⟨"m", [1]⟩] (.one "")).ret =
      .ok [⟨["m"], [1]⟩] := by
  decide

/-! ## Claim C9 -/

/-- C9: once `close()` succeeds on a handle, every subsequent operation on
that handle — `records` (list), `find` (read), `insert`, `update`,
`delete`, `drop` — fails with `ConnectorError`: each validates the
connector first, and the connector is gone. -/
theorem closed_handle_ops_fail (e e' : EngineSt) (i : Nat)
    (hclose : drop_connectors e i = .ok e') (c : Container)
    (arg : NamesArg) (rn : String) (d : Data) (rb : Bool) (fod : Bool) :
    (list_records e' i c).ret = .error .connectorError ∧
    (read_records e' i c arg).ret = .error .connectorError ∧
    (write_record e' i c rn d).ret = .error .connectorError ∧
    (update_record e' i c rn d rb).ret = .error .connectorError ∧
    (remove_record e' i c rn).ret = .error .connectorError ∧
    (drop_database e' i fod).1 = .error .connectorError := by
  have hmem : i ∈ e.connections := by
    by_contra hn
    unfold drop_connectors at hclose
    rw [if_neg hn] at hclose
    exact absurd hclose (by simp)
  have he' : e' = ⟨e.connections.erase i⟩ := by
    unfold drop_connectors at hclose
    rw [if_pos hmem] at hclose
    injection hclose with h
    exact h.symm
  have hni : i ∉ e'.connections := by
    rw [he']
    exact Finset.not_mem_erase _ _
  refine ⟨?_, ?_, ?_, ?_, ?_, ?_⟩ <;>
    simp [list_records, read_records, write_record, update_record,
      remove_record, drop_database, hni]

theorem closed_handle_ops_fail_witness :
    drop_connectors ⟨{7}⟩ 7 = .ok ⟨∅⟩ ∧
    ((list_records ⟨∅⟩ 7 [⟨"a", [1]⟩]).ret = .error .connectorError ∧
      (read_records ⟨∅⟩ 7 [⟨"a", [1]⟩] (.one "a")).ret =
        .error .connectorError ∧
      (write_record ⟨∅⟩ 7 [⟨"a", [1]⟩] "b" (.bytes [2])).ret =
        .error .connectorError ∧
      (update_record ⟨∅⟩ 7 [⟨"a", [1]⟩] "a" (.bytes [2]) false).ret =
        .error .connectorError ∧
      (remove_record ⟨∅⟩ 7 [⟨"a", [1]⟩] "a").ret =
        .error .connectorError ∧
      (drop_database ⟨∅⟩ 7 true).1 = .error .connectorError) :=
  ⟨by decide,
    closed_handle_ops_fail ⟨{7}⟩ ⟨∅⟩ 7 (by decide) [⟨"a", [1]⟩]
      (.one "a") "a" (.bytes [2]) false true⟩

/-! ## Claim C10 -/

/-- C10: calling `close()` a second time on an already-closed handle
raises `KeyError` from the unchecked `del self.connections[id(db)]` — not
the `ConnectorError` every other operation reports for closed handles. -/
theorem close_twice_keyError (e e' : EngineSt) (i : Nat)
    (hclose : drop_connectors e i = .ok e') :
    drop_connectors e' i = .error .keyError := by
  have hmem : i ∈ e.connections := by
    by_contra hn
    unfold drop_connectors at hclose
    rw [if_neg hn] at hclose
    exact absurd hclose (by simp)
  have he' : e' = ⟨e.connections.erase i⟩ := by
    unfold drop_connectors at hclose
    rw [if_pos hmem] at hclose
    injection hclose with h
    exact h.symm
  have hni : i ∉ e'.connections := by
    rw [he']
    exact Finset.not_mem_erase _ _
  unfold drop_connectors
  rw [if_neg hni]

theorem close_twice_keyError_witness :
    drop_connectors ⟨{7}⟩ 7 = .ok ⟨∅⟩ ∧
    drop_connectors ⟨∅⟩ 7 = .error .keyError :=
  ⟨by decide, close_twice_keyError ⟨{7}⟩ ⟨∅⟩ 7 (by decide)⟩

/-! ## Claim C1 -/

/-- C1 counterexample: with `{"r": [1]}` stored, `update("r", bytes([2]))`
succeeds but `get("r")` returns `[1, 2]` — the old payload concatenated
with the new data, stored as a shadowing duplicate entry — not `[2]`. -/
theorem update_new_payload_cex :
    (update_record ⟨{0}⟩ 0 [⟨"r", [1]⟩] "r" (.bytes [2]) false).ret =
      .ok true ∧
    (update_record ⟨{0}⟩ 0 [⟨"r", [1]⟩] "r" (.bytes [2]) false).db =
      [⟨"r", [1]⟩, ⟨"r", [1, 2]⟩] ∧
    (read_records ⟨{0}⟩ 0
        (update_record ⟨{0}⟩ 0 [⟨"r", [1]⟩] "r" (.bytes [2]) false).db
        (.one "r")).ret = .ok [⟨["r"], [1, 2]⟩] ∧
    ([1, 2] : Bytes) ≠ [2] := by
  decide

/-- C1 (amended): after `update(n, data)` (default `rebuild=False`, which
only ever succeeds for `bytes` payloads — text payloads hit a `TypeError`)
succeeds, `get(n)` returns the *old* payload with `data` appended — the
update writes a shadowing duplicate entry whose bytes are old ++ new —
and every other record's payload is byte-identical before and after.  The
`rebuild=True` path appends likewise (the extracted file is opened in
append mode). -/
theorem update_then_get_appends (e : EngineSt) (i : Nat) (c : Container)
    (n : String) (bd old : Bytes) (hconn : i ∈ e.connections)
    (harc : fromFileArcname n = .ok n) (hold : zipRead c n = some old) :
    (update_record e i c n (.bytes bd) false).ret = .ok true ∧
    (read_records e i (update_record e i c n (.bytes bd) false).db
        (.one n)).ret = .ok [⟨[n], old ++ bd⟩] ∧
    ∀ m, m ≠ n →
      zipRead (update_record e i c n (.bytes bd) false).db m =
        zipRead c m := by
  have hne : n ≠ "" := ne_empty_of_arcFixed harc
  have hmem : n ∈ namelist c := mem_namelist_of_zipRead hold
  have hread : readList c (.one n) = [⟨[n], old⟩] := by
    rw [readList_one c n hne, hold]
  have hdb : update_record e i c n (.bytes bd) false =
      ⟨.ok true, c ++ [⟨n, old ++ bd⟩]⟩ := by
    unfold update_record
    rw [if_neg (not_not_intro hconn), if_neg Bool.false_ne_true,
      if_neg (not_not_intro hmem), hread, harc]
  refine ⟨by rw [hdb], ?_, ?_⟩
  · rw [hdb]
    unfold read_records
    rw [if_neg (not_not_intro hconn)]
    have h1 : readList (c ++ [⟨n, old ++ bd⟩]) (.one n) =
        [⟨[n], old ++ bd⟩] := by
      rw [readList_one _ n hne, zipRead_append_self]
    simp [h1]
  · intro m hm
    rw [hdb]
    exact zipRead_append_ne c n m _ (fun hh => hm hh.symm)

theorem update_then_get_appends_witness :
    (0 ∈ (⟨{0}⟩ : EngineSt).connections ∧
      fromFileArcname "r" = .ok "r" ∧
      zipRead [⟨"r", [1]⟩, ⟨"s", [9]⟩] "r" = some [1]) ∧
    ((update_record ⟨{0}⟩ 0 [⟨"r", [1]⟩, ⟨"s", [9]⟩] "r"
        (.bytes [2]) false).ret = .ok true ∧
      (read_records ⟨{0}⟩ 0
          (update_record ⟨{0}⟩ 0 [⟨"r", [1]⟩, ⟨"s", [9]⟩] "r"
            (.bytes [2]) false).db (.one "r")).ret =
        .ok [⟨["r"], [1, 2]⟩] ∧
      ∀ m, m ≠ "r" →
        zipRead (update_record ⟨{0}⟩ 0 [⟨"r", [1]⟩, ⟨"s", [9]⟩] "r"
            (.bytes [2]) false).db m =
          zipRead [⟨"r", [1]⟩, ⟨"s", [9]⟩] m) :=
  ⟨⟨by decide, by decide, by decide⟩,
    update_then_get_appends ⟨{0}⟩ 0 [⟨"r", [1]⟩, ⟨"s", [9]⟩] "r" [2] [1]
      (by decide) (by decide) (by decide)⟩

/-! ## Claim C6 -/

/-- C6 counterexample: the empty name is absent from `{"m": [9]}`, yet
`insert("", bytes([1]))` succeeds — storing the entry under the
normalized arcname `"."` — and `find("")` then returns *two* records (the
falsy name is replaced by the whole name list), not exactly one record
with the inserted payload. -/
theorem insert_then_get_cex :
    "" ∉ namelist [⟨"m", [9]⟩] ∧
    (write_record ⟨{0}⟩ 0 [⟨"m", [9]⟩] "" (.bytes [1])).ret = .ok true ∧
    (write_record ⟨{0}⟩ 0 [⟨"m", [9]⟩] "" (.bytes [1])).db =
      [⟨"m", [9]⟩, ⟨".", [1]⟩] ∧
    (read_records ⟨{0}⟩ 0 [⟨"m", [9]⟩, ⟨".", [1]⟩] (.one "")).ret =
      .ok [⟨["m", "."], [9]⟩, ⟨["m", "."], [1]⟩] := by
  decide

/-- C6 (amended): for every name fixed by the arcname normalization of
`ZipFile.write` (in particular nonempty, hence truthy) and not present,
and every payload, `insert(n, payload)` then `find(n)` returns exactly
one record whose raw bytes equal the payload (its UTF-8 encoding when the
payload is text), and whose text view decodes back to the original
text. -/
theorem insert_then_get_roundtrip (e : EngineSt) (i : Nat) (c : Container)
    (n : String) (d : Data) (hconn : i ∈ e.connections)
    (harc : fromFileArcname n = .ok n) (habs : n ∉ namelist c) :
    (write_record e i c n d).ret = .ok true ∧
    (read_records e i (write_record e i c n d).db (.one n)).ret =
      .ok [⟨[n], dataBytes d⟩] ∧
    ∀ s, d = .text s → pyDecodeUtf8 (dataBytes d) = some s := by
  have hne : n ≠ "" := ne_empty_of_arcFixed harc
  have hdb : write_record e i c n d =
      ⟨.ok true, c ++ [⟨n, dataBytes d⟩]⟩ := by
    unfold write_record
    rw [if_neg (not_not_intro hconn), if_neg habs, harc]
  refine ⟨by rw [hdb], ?_, ?_⟩
  · rw [hdb]
    unfold read_records
    rw [if_neg (not_not_intro hconn)]
    have h1 : readList (c ++ [⟨n, dataBytes d⟩]) (.one n) =
        [⟨[n], dataBytes d⟩] := by
      rw [readList_one _ n hne, zipRead_append_self]
    simp [h1]
  · rintro s rfl
    exact pyDecodeUtf8_encodeStr s

theorem insert_then_get_roundtrip_witness :
    (0 ∈ (⟨{0}⟩ : EngineSt).connections ∧
      fromFileArcname "x" = .ok "x" ∧ "x" ∉ namelist [⟨"m", [9]⟩]) ∧
    ((write_record ⟨{0}⟩ 0 [⟨"m", [9]⟩] "x" (.text "hi")).ret =
        .ok true ∧
      (read_records ⟨{0}⟩ 0
          (write_record ⟨{0}⟩ 0 [⟨"m", [9]⟩] "x" (.text "hi")).db
          (.one "x")).ret = .ok [⟨["x"], dataBytes (.text "hi")⟩] ∧
      ∀ s, Data.text "hi" = .text s →
        pyDecodeUtf8 (dataBytes (.text "hi")) = some s) :=
  ⟨⟨by decide, by decide, by decide⟩,
    insert_then_get_roundtrip ⟨{0}⟩ 0 [⟨"m", [9]⟩] "x" (.text "hi")
      (by decide) (by decide) (by decide)⟩

/-! ## Claim C2 -/

/-- C2 counterexample: a failing `delete` rebuild (absent record) leaves
the original container untouched but does *not* remove the temporary
directory — `_rebuild` has no failure handler; `shutil.rmtree` runs only
after a successful swap. -/
theorem rebuild_failure_leaks_tmpdir_cex :
    (rebuild [⟨"a", [1]⟩] "delete" (some "x") none).err =
      some .recordNotExists ∧
    (rebuild [⟨"a", [1]⟩] "delete" (some "x") none).db = [⟨"a", [1]⟩] ∧
    (rebuild [⟨"a", [1]⟩] "delete" (some "x") none).tmpLeaked = true := by
  decide

/-- C2 (amended): whenever `_rebuild` fails — any mode, any arguments —
the original container is byte-identical to its pre-call state (the swap
never ran), but for every in-protocol failure (valid mode, so the failure
occurs after `mkdtemp`) the temporary directory is left behind, not
removed. -/
theorem rebuild_failure_preserves_container (c : Container) (mode : String)
    (rn : Option String) (d : Option Data) (er : ZErr)
    (herr : (rebuild c mode rn d).err = some er) :
    (rebuild c mode rn d).db = c ∧
    (mode ∈ rebuildModes → (rebuild c mode rn d).tmpLeaked = true) := by
  by_cases hm : mode ∈ rebuildModes
  · have hm' : mode = "recreate" ∨ mode = "delete" ∨ mode = "update" := by
      simpa [rebuildModes] using hm
    rcases hm' with rfl | rfl | rfl
    · exact absurd herr (by simp [rebuild, rebuildModes])
    · rcases rn with _ | rn'
      · refine ⟨?_, fun _ => ?_⟩ <;> simp [rebuild, rebuildModes]
      · by_cases h0 : rn' = ""
        · refine ⟨?_, fun _ => ?_⟩ <;> simp [rebuild, rebuildModes, h0]
        · by_cases hmem : rn' ∈ dedupFirst (namelist c)
          · exact absurd herr
              (by simp [rebuild, rebuildModes, h0, hmem])
          · refine ⟨?_, fun _ => ?_⟩ <;>
              simp [rebuild, rebuildModes, h0, hmem]
    · rcases rn with _ | rn' <;> rcases d with _ | dd
      · refine ⟨?_, fun _ => ?_⟩ <;> simp [rebuild, rebuildModes]
      · refine ⟨?_, fun _ => ?_⟩ <;> simp [rebuild, rebuildModes]
      · refine ⟨?_, fun _ => ?_⟩ <;> simp [rebuild, rebuildModes]
      · by_cases h0 : rn' = "" ∨ dataFalsy dd = true
        · refine ⟨?_, fun _ => ?_⟩ <;> simp [rebuild, rebuildModes, h0]
        · by_cases hmem : rn' ∈ dedupFirst (namelist c)
          · exact absurd herr
              (by simp [rebuild, rebuildModes, h0, hmem])
          · refine ⟨?_, fun _ => ?_⟩ <;>
              simp [rebuild, rebuildModes, h0, hmem]
  · refine ⟨?_, fun hmem => absurd hmem hm⟩
    unfold rebuild
    rw [if_pos hm]

theorem rebuild_failure_preserves_container_witness :
    (rebuild [⟨"a", [1]⟩] "update" (some "x") (some (.bytes [2]))).err =
      some .recordNotExists ∧
    ((rebuild [⟨"a", [1]⟩] "update" (some "x")
        (some (.bytes [2]))).db = [⟨"a", [1]⟩] ∧
      ("update" ∈ rebuildModes →
        (rebuild [⟨"a", [1]⟩] "update" (some "x")
          (some (.bytes [2]))).tmpLeaked = true)) :=
  ⟨by decide,
    rebuild_failure_preserves_container [⟨"a", [1]⟩] "update" (some "x")
      (some (.bytes [2])) .recordNotExists (by decide)⟩

/-! ## Claim C4 -/

/-- C4 counterexample: deleting an absent name is *not* a no-op success:
`delete("x")` on an empty store raises `RecordNotExists` rather than
returning a success boolean. -/
theorem delete_absent_cex :
    (remove_record ⟨{0}⟩ 0 [] "x").ret = .error .recordNotExists ∧
    (remove_record ⟨{0}⟩ 0 [] "x").ret ≠ .ok true := by
  decide

/-- C4 (amended): in a store whose record names are all tame (so that the
`extractall` preceding the check cannot itself fail on slash-collisions
or `.`/`..` components), `delete(name)` *does* perform an existence check
inside `_rebuild`: deleting an absent (nonempty) name fails with
`RecordNotExists` and leaves the container unchanged, while deleting a
present name performs the full rewrite and returns `True`. -/
theorem delete_checks_existence (e : EngineSt) (i : Nat) (c : Container)
    (n : String) (hconn : i ∈ e.connections) (hne : n ≠ "")
    (htame : ∀ s ∈ namelist c, tameName s) :
    (n ∉ namelist c →
      (remove_record e i c n).ret = .error .recordNotExists ∧
      (remove_record e i c n).db = c) ∧
    (n ∈ namelist c → (remove_record e i c n).ret = .ok true) := by
  constructor
  · intro habs
    have hmem : n ∉ dedupFirst (namelist c) := fun hh =>
      habs ((mem_dedupFirst _ _).mp hh)
    unfold remove_record
    rw [if_neg (not_not_intro hconn)]
    have hreb : rebuild c "delete" (some n) none =
        ⟨c, some .recordNotExists, true⟩ := by
      simp [rebuild, rebuildModes, hne, hmem]
    rw [hreb]
    exact ⟨rfl, rfl⟩
  · intro hpres
    have hmem : n ∈ dedupFirst (namelist c) :=
      (mem_dedupFirst _ _).mpr hpres
    unfold remove_record
    rw [if_neg (not_not_intro hconn)]
    have hreb : rebuild c "delete" (some n) none =
        ⟨recreate (extractedContent c)
          ((dedupFirst (namelist c)).filter (· ≠ n)), none, false⟩ := by
      simp [rebuild, rebuildModes, hne, hmem]
    rw [hreb]

theorem delete_checks_existence_witness :
    (0 ∈ (⟨{0}⟩ : EngineSt).connections ∧ "b" ≠ "" ∧
      (∀ s ∈ namelist [⟨"a", [1]⟩], tameName s)) ∧
    (("b" ∉ namelist [⟨"a", [1]⟩] →
        (remove_record ⟨{0}⟩ 0 [⟨"a", [1]⟩] "b").ret =
          .error .recordNotExists ∧
        (remove_record ⟨{0}⟩ 0 [⟨"a", [1]⟩] "b").db = [⟨"a", [1]⟩]) ∧
      ("b" ∈ namelist [⟨"a", [1]⟩] →
        (remove_record ⟨{0}⟩ 0 [⟨"a", [1]⟩] "b").ret = .ok true)) :=
  ⟨⟨by decide, by decide, by decide⟩,
    delete_checks_existence ⟨{0}⟩ 0 [⟨"a", [1]⟩] "b" (by decide)
      (by decide) (by decide)⟩

/-! ## Success-path helper lemmas (shared by several claims) -/

theorem write_record_success (e : EngineSt) (i : Nat) (c : Container)
    (n : String) (d : Data) (hconn : i ∈ e.connections)
    (harc : fromFileArcname n = .ok n) (habs : n ∉ namelist c) :
    write_record e i c n d = ⟨.ok true, c ++ [⟨n, dataBytes d⟩]⟩ := by
  unfold write_record
  rw [if_neg (not_not_intro hconn), if_neg habs, harc]

theorem update_norebuild_success (e : EngineSt) (i : Nat) (c : Container)
    (n : String) (bd old : Bytes) (hconn : i ∈ e.connections)
    (harc : fromFileArcname n = .ok n) (hold : zipRead c n = some old) :
    update_record e i c n (.bytes bd) false =
      ⟨.ok true, c ++ [⟨n, old ++ bd⟩]⟩ := by
  have hne : n ≠ "" := ne_empty_of_arcFixed harc
  have hmem : n ∈ namelist c := mem_namelist_of_zipRead hold
  have hread : readList c (.one n) = [⟨[n], old⟩] := by
    rw [readList_one c n hne, hold]
  unfold update_record
  rw [if_neg (not_not_intro hconn), if_neg Bool.false_ne_true,
    if_neg (not_not_intro hmem), hread, harc]

theorem remove_record_success (e : EngineSt) (i : Nat) (c : Container)
    (n : String) (hconn : i ∈ e.connections) (hne : n ≠ "")
    (hmem : n ∈ namelist c) :
    remove_record e i c n =
      ⟨.ok true, recreate (extractedContent c)
        ((dedupFirst (namelist c)).filter (· ≠ n))⟩ := by
  unfold remove_record
  rw [if_neg (not_not_intro hconn)]
  have hreb : rebuild c "delete" (some n) none =
      ⟨recreate (extractedContent c)
        ((dedupFirst (namelist c)).filter (· ≠ n)), none, false⟩ := by
    simp [rebuild, rebuildModes, hne, (mem_dedupFirst _ _).mpr hmem]
  rw [hreb]

theorem recreate_tame_entries (c : Container) (F : List String)
    (hF : ∀ x ∈ F, tameName x) :
    recreate (extractedContent c) F =
      F.map (fun x => ⟨x, extractedContent c x⟩) := by
  unfold recreate
  apply List.map_congr_left
  intro x hx
  have ht := hF x hx
  rw [pySplitLast_tame x ht.2.2.2, writeArcname_tame x ht]

theorem namelist_map_mk (F : List String) (f : String → Bytes) :
    namelist (F.map (fun x => ⟨x, f x⟩)) = F := by
  simp [namelist, List.map_map, Function.comp_def]

theorem namelist_append_single (c : Container) (en : Entry) :
    namelist (c ++ [en]) = namelist c ++ [en.name] := by
  simp [namelist]

/-! ## Claim C5 -/

/-- C5 counterexample: record names containing a path separator are *not*
preserved by the delete rewrite: with `{"keep/it": [1], "del": [2]}`,
`delete("del")` succeeds but the surviving record is renamed to its final
path component `"it"` — `"keep/it"` is no longer retrievable. -/
theorem delete_renames_nested_cex :
    (remove_record ⟨{0}⟩ 0 [⟨"keep/it", [1]⟩, ⟨"del", [2]⟩] "del").ret =
      .ok true ∧
    (remove_record ⟨{0}⟩ 0 [⟨"keep/it", [1]⟩, ⟨"del", [2]⟩] "del").db =
      [⟨"it", [1]⟩] ∧
    zipRead (remove_record ⟨{0}⟩ 0 [⟨"keep/it", [1]⟩, ⟨"del", [2]⟩]
      "del").db "keep/it" = none := by
  decide

/-- C5 (amended): in a store whose record names are all tame (in
particular, free of path separators), after `delete(n)` succeeds:
`find(n)` returns the empty result, `list()` no longer contains `n`, and
every other record remains retrievable under its original name with its
original payload bytes.  A name containing a path separator is instead
renamed to its final path component by the rewrite (see the
counterexample). -/
theorem delete_preserves_other_records (e : EngineSt) (i : Nat)
    (c : Container) (n : String) (hconn : i ∈ e.connections)
    (htame : ∀ s ∈ namelist c, tameName s) (hmem : n ∈ namelist c) :
    (remove_record e i c n).ret = .ok true ∧
    (read_records e i (remove_record e i c n).db (.one n)).ret = .ok [] ∧
    n ∉ namelist (remove_record e i c n).db ∧
    ∀ m ∈ namelist c, m ≠ n →
      zipRead (remove_record e i c n).db m = zipRead c m := by
  have hne : n ≠ "" := tameName_ne_empty (htame n hmem)
  have hdb := remove_record_success e i c n hconn hne hmem
  have htameF : ∀ x ∈ (dedupFirst (namelist c)).filter (· ≠ n),
      tameName x := by
    intro x hx
    exact htame x ((mem_dedupFirst _ _).mp (List.mem_filter.mp hx).1)
  have hentries := recreate_tame_entries c _ htameF
  have hnF : n ∉ (dedupFirst (namelist c)).filter (· ≠ n) := by
    simp [List.mem_filter]
  have hzn : zipRead (recreate (extractedContent c)
      ((dedupFirst (namelist c)).filter (· ≠ n))) n = none := by
    rw [hentries, zipRead_map, if_neg hnF]
  refine ⟨by rw [hdb], ?_, ?_, ?_⟩
  · rw [hdb]
    unfold read_records
    rw [if_neg (not_not_intro hconn)]
    have h1 : readList (recreate (extractedContent c)
        ((dedupFirst (namelist c)).filter (· ≠ n))) (.one n) = [] := by
      rw [readList_one _ n hne, hzn]
    exact congrArg Except.ok h1
  · have hnn : n ∉ namelist (recreate (extractedContent c)
        ((dedupFirst (namelist c)).filter (· ≠ n))) := by
      rw [hentries, namelist_map_mk]
      exact hnF
    rw [hdb]
    exact hnn
  · intro m hmc hmn
    have hmF : m ∈ (dedupFirst (namelist c)).filter (· ≠ n) := by
      simp [List.mem_filter, (mem_dedupFirst _ _).mpr hmc, hmn]
    obtain ⟨bm, hbm⟩ := zipRead_some_of_mem hmc
    have hzz : zipRead (recreate (extractedContent c)
        ((dedupFirst (namelist c)).filter (· ≠ n))) m = zipRead c m := by
      rw [hentries, zipRead_map, if_pos hmF, hbm]
      unfold extractedContent
      rw [hbm]
      rfl
    rw [hdb]
    exact hzz

theorem delete_preserves_other_records_witness :
    (0 ∈ (⟨{0}⟩ : EngineSt).connections ∧
      (∀ s ∈ namelist [⟨"a", [1]⟩, ⟨"b", [2]⟩], tameName s) ∧
      "b" ∈ namelist [⟨"a", [1]⟩, ⟨"b", [2]⟩]) ∧
    ((remove_record ⟨{0}⟩ 0 [⟨"a", [1]⟩, ⟨"b", [2]⟩] "b").ret =
        .ok true ∧
      (read_records ⟨{0}⟩ 0
          (remove_record ⟨{0}⟩ 0 [⟨"a", [1]⟩, ⟨"b", [2]⟩] "b").db
          (.one "b")).ret = .ok [] ∧
      "b" ∉ namelist
        (remove_record ⟨{0}⟩ 0 [⟨"a", [1]⟩, ⟨"b", [2]⟩] "b").db ∧
      ∀ m ∈ namelist [⟨"a", [1]⟩, ⟨"b", [2]⟩], m ≠ "b" →
        zipRead (remove_record ⟨{0}⟩ 0 [⟨"a", [1]⟩, ⟨"b", [2]⟩] "b").db
            m =
          zipRead [⟨"a", [1]⟩, ⟨"b", [2]⟩] m) :=
  ⟨⟨by decide, by decide, by decide⟩,
    delete_preserves_other_records ⟨{0}⟩ 0 [⟨"a", [1]⟩, ⟨"b", [2]⟩] "b"
      (by decide) (by decide) (by decide)⟩

/-! ## Claim C3 -/

/-- C3 counterexample: `update` with the default `rebuild=False` appends a
*duplicate* entry for the updated name: starting from a store whose
single record is `"r"`, the container afterwards holds two entries named
`"r"`. -/
theorem update_duplicates_entry_cex :
    (update_record ⟨{0}⟩ 0 [⟨"r", [1]⟩] "r" (.bytes [2]) false).ret =
      .ok true ∧
    namelist (update_record ⟨{0}⟩ 0 [⟨"r", [1]⟩] "r"
      (.bytes [2]) false).db = ["r", "r"] ∧
    ¬ (namelist (update_record ⟨{0}⟩ 0 [⟨"r", [1]⟩] "r"
      (.bytes [2]) false).db).Nodup := by
  decide

/-- C3 (amended): with tame, normalization-fixed names, `insert` and
`delete` preserve the one-entry-per-name invariant, but `update` with the
default `rebuild=False` always violates it: a successful non-rebuild
update appends a second entry under the updated name. -/
theorem ops_and_duplicate_names (e : EngineSt) (i : Nat) (c : Container)
    (n m : String) (d : Data) (bd : Bytes) (hconn : i ∈ e.connections)
    (hnd : (namelist c).Nodup) (htame : ∀ s ∈ namelist c, tameName s)
    (harcn : fromFileArcname n = .ok n) (habs : n ∉ namelist c)
    (hm : m ∈ namelist c) :
    (namelist (write_record e i c n d).db).Nodup ∧
    (namelist (remove_record e i c m).db).Nodup ∧
    ¬ (namelist (update_record e i c m (.bytes bd) false).db).Nodup := by
  have htm : tameName m := htame m hm
  have hnem : m ≠ "" := tameName_ne_empty htm
  refine ⟨?_, ?_, ?_⟩
  · rw [write_record_success e i c n d hconn harcn habs]
    have : namelist (c ++ [⟨n, dataBytes d⟩]) =
        namelist c ++ [n] := namelist_append_single c _
    rw [this, List.nodup_append]
    exact ⟨hnd, List.nodup_singleton n, by
      intro a ha hb
      simp only [List.mem_singleton] at hb
      exact habs (hb ▸ ha)⟩
  · rw [remove_record_success e i c m hconn hnem hm]
    have htameF : ∀ x ∈ (dedupFirst (namelist c)).filter (· ≠ m),
        tameName x := by
      intro x hx
      exact htame x ((mem_dedupFirst _ _).mp (List.mem_filter.mp hx).1)
    have hentries := recreate_tame_entries c _ htameF
    rw [hentries, namelist_map_mk]
    exact (nodup_dedupFirst (namelist c)).filter _
  · obtain ⟨old, hold⟩ := zipRead_some_of_mem hm
    rw [update_norebuild_success e i c m bd old hconn
      (fromFileArcname_tame m htm) hold]
    have : namelist (c ++ [⟨m, old ++ bd⟩]) =
        namelist c ++ [m] := namelist_append_single c _
    rw [this, List.nodup_append]
    intro hcontra
    exact hcontra.2.2 hm (by simp)

theorem ops_and_duplicate_names_witness :
    (0 ∈ (⟨{0}⟩ : EngineSt).connections ∧
      (namelist [⟨"a", [1]⟩, ⟨"b", [2]⟩]).Nodup ∧
      (∀ s ∈ namelist [⟨"a", [1]⟩, ⟨"b", [2]⟩], tameName s) ∧
      fromFileArcname "x" = .ok "x" ∧
      "x" ∉ namelist [⟨"a", [1]⟩, ⟨"b", [2]⟩] ∧
      "a" ∈ namelist [⟨"a", [1]⟩, ⟨"b", [2]⟩]) ∧
    ((namelist (write_record ⟨{0}⟩ 0 [⟨"a", [1]⟩, ⟨"b", [2]⟩] "x"
        (.text "t")).db).Nodup ∧
      (namelist (remove_record ⟨{0}⟩ 0 [⟨"a", [1]⟩, ⟨"b", [2]⟩]
        "a").db).Nodup ∧
      ¬ (namelist (update_record ⟨{0}⟩ 0 [⟨"a", [1]⟩, ⟨"b", [2]⟩] "a"
        (.bytes [5]) false).db).Nodup) :=
  ⟨⟨by decide, by decide, by decide, by decide, by decide, by decide⟩,
    ops_and_duplicate_names ⟨{0}⟩ 0 [⟨"a", [1]⟩, ⟨"b", [2]⟩] "x" "a"
      (.text "t") [5] (by decide) (by decide) (by decide) (by decide)
      (by decide) (by decide)⟩

end Zfdb
